import Mathlib

/-!
Shallow embedding of `src/app.py` (CarRecogWebsite): the image analyzer
`analyze_image`, the extension check `allowed_file`, and the request
handler `index`.

Library calls (`cv2.cvtColor`, `cv2.Canny`, `cv2.findContours`,
`cv2.imdecode`) are external to the repository; the embedding abstracts
their outputs as inputs (the HSV pixel list and the contour list) or as
universally quantified functions, and models faithfully the code the
repository itself contains: the color-range counting, the dominant-color
selection chain, the contour filter and its unguarded division, the
extension check, and the handler's branching.
-/

namespace CarRecog

/-! ## Data model: HSV pixels (app.py lines 27-40) -/

/-- An HSV pixel as produced by `cv2.cvtColor(image, cv2.COLOR_BGR2HSV)`:
hue 0-180, saturation and value 0-255 in the 8-bit convention. -/
structure HSV where
  h : ℕ
  s : ℕ
  v : ℕ
deriving DecidableEq

/-- `cv2.inRange` keeps a pixel when every component lies inclusively
between the lower and the upper bound. -/
def inHSVRange (lo hi : HSV) (p : HSV) : Bool :=
  decide (lo.h ≤ p.h ∧ p.h ≤ hi.h ∧ lo.s ≤ p.s ∧ p.s ≤ hi.s ∧
          lo.v ≤ p.v ∧ p.v ≤ hi.v)

/-- `cv2.countNonZero(cv2.inRange(hsv, lo, hi))`: the number of pixels of
the image inside the range. -/
def countInRange (lo hi : HSV) (img : List HSV) : ℕ :=
  (img.filter (inHSVRange lo hi)).length

def red_lower : HSV := ⟨170, 100, 100⟩
def red_upper : HSV := ⟨180, 255, 255⟩
def blue_lower : HSV := ⟨100, 100, 100⟩
def blue_upper : HSV := ⟨140, 255, 255⟩
def green_lower : HSV := ⟨40, 50, 50⟩
def green_upper : HSV := ⟨80, 255, 255⟩

def red_count (img : List HSV) : ℕ := countInRange red_lower red_upper img

def blue_count (img : List HSV) : ℕ := countInRange blue_lower blue_upper img

def green_count (img : List HSV) : ℕ := countInRange green_lower green_upper img

/-- The color labels the analyzer can emit (app.py lines 44-49). -/
inductive Color where
  | Red
  | Blue
  | Green
deriving DecidableEq

/-- The dominant-color selection chain of app.py lines 43-49:
`if red > blue and red > green: ... elif blue > red and blue > green: ...
elif green > red and green > blue: ...` with `None` otherwise. -/
def dominant_color (redC blueC greenC : ℕ) : Option Color :=
  if redC > blueC ∧ redC > greenC then some Color.Red
  else if blueC > redC ∧ blueC > greenC then some Color.Blue
  else if greenC > redC ∧ greenC > blueC then some Color.Green
  else none

/-! ## Data model: contours and rectangles (app.py lines 56-64) -/

/-- A contour point, in image pixel coordinates as `cv2.findContours`
returns them (nonnegative integers within the image). -/
abbrev Pt := ℕ × ℕ

/-- A contour: the list of boundary points of one connected component. -/
abbrev Contour := List Pt

/-- An upright bounding rectangle, as the dictionary built on app.py
line 64: top-left corner `(x, y)`, width `w`, height `h`. -/
structure Rect where
  x : ℕ
  y : ℕ
  w : ℕ
  h : ℕ
deriving DecidableEq

/-- `cv2.boundingRect(cnt)`: the minimal upright rectangle enclosing the
points, with `w = maxX - minX + 1` and `h = maxY - minY + 1`. On the
empty contour (which `findContours` never produces) it degenerates to
the zero rectangle. -/
def boundingRect : Contour → Rect
  | [] => ⟨0, 0, 0, 0⟩
  | p :: ps =>
    let xs := (p :: ps).map Prod.fst
    let ys := (p :: ps).map Prod.snd
    let x0 := xs.foldl Nat.min p.1
    let y0 := ys.foldl Nat.min p.2
    let x1 := xs.foldl Nat.max p.1
    let y1 := ys.foldl Nat.max p.2
    ⟨x0, y0, x1 - x0 + 1, y1 - y0 + 1⟩

/-- One term of the shoelace sum. -/
def cross (p q : Pt) : ℤ :=
  (p.1 : ℤ) * (q.2 : ℤ) - (q.1 : ℤ) * (p.2 : ℤ)

/-- The cyclic shoelace sum of a polygon, closing back to `first`. -/
def shoelace (first : Pt) : List Pt → ℤ
  | [] => 0
  | [p] => cross p first
  | p :: q :: rest => cross p q + shoelace first (q :: rest)

/-- `cv2.contourArea(cnt)`: half the absolute value of the shoelace sum
of the contour polygon (Green's formula). -/
def contourArea : Contour → ℚ
  | [] => 0
  | p :: ps => ((shoelace p (p :: ps)).natAbs : ℚ) / 2

/-- The body of the loop of app.py lines 60-64 for one contour:
`x, y, w, h = cv2.boundingRect(cnt); aspect_ratio = float(w) / h;
if 2 < aspect_ratio < 5 and 100 < cv2.contourArea(cnt) < 5000: append`.
Python's `float(w) / h` raises `ZeroDivisionError` when `h = 0`, modelled
as `Except.error ()`; otherwise the step yields `some` rectangle when the
chained comparisons hold and `none` when they do not. -/
def plateStep (cnt : Contour) : Except Unit (Option Rect) :=
  let r := boundingRect cnt
  if r.h = 0 then Except.error ()
  else
    let aspect_ratio : ℚ := (r.w : ℚ) / (r.h : ℚ)
    Except.ok (if 2 < aspect_ratio ∧ aspect_ratio < 5 ∧
                  100 < contourArea cnt ∧ contourArea cnt < 5000
               then some r else none)

/-- The full filter loop of app.py lines 59-64: rectangles are appended
in contour discovery order; an exception in any step aborts the call. -/
def numberPlates : List Contour → Except Unit (List Rect)
  | [] => Except.ok []
  | cnt :: rest => do
    let o ← plateStep cnt
    let tail ← numberPlates rest
    match o with
    | some r => Except.ok (r :: tail)
    | none => Except.ok tail

/-- The analyzer's result record (app.py line 66). -/
structure AnalysisResult where
  color : Option Color
  number_plates : List Rect
deriving DecidableEq

/-- `analyze_image` (app.py lines 7-66), with the outputs of the external
conversions abstracted as inputs: `hsv` is the pixel list of
`cv2.cvtColor(image, cv2.COLOR_BGR2HSV)` and `cnts` the contour list of
`cv2.findContours` on the Canny edge map. The color is selected from the
three range counts; the plate loop may raise, aborting the call. -/
def analyze_image (hsv : List HSV) (cnts : List Contour) :
    Except Unit AnalysisResult := do
  let plates ← numberPlates cnts
  Except.ok ⟨dominant_color (red_count hsv) (blue_count hsv) (green_count hsv),
             plates⟩

/-! ## Extension check (app.py lines 68-72) -/

/-- Python's `l.rsplit(sep, 1)`: split at the last occurrence of `sep`,
giving the two surrounding parts, or the whole string when `sep` is
absent. -/
def rsplit1 (sep : Char) (l : List Char) : List (List Char) :=
  let r := l.reverse
  if r.contains sep then
    [((r.dropWhile (fun c => c ≠ sep)).drop 1).reverse,
     (r.takeWhile (fun c => c ≠ sep)).reverse]
  else [l]

def pngExt : List Char := ['p', 'n', 'g']

def jpgExt : List Char := ['j', 'p', 'g']

def jpegExt : List Char := ['j', 'p', 'e', 'g']

/-- `allowed_file` (app.py line 72):
`'.' in filename and filename.rsplit('.', 1)[1].lower() in
\x7b'png', 'jpg', 'jpeg'\x7d`. -/
def allowed_file (filename : List Char) : Bool :=
  filename.contains '.' &&
    decide (((rsplit1 '.' filename).getD 1 []).map Char.toLower ∈
            [pngExt, jpgExt, jpegExt])

/-! ## Request handler (app.py lines 74-101) -/

/-- An uploaded file: its client-supplied filename and its byte
content. -/
structure UploadedFile where
  filename : List Char
  content : List ℕ
deriving DecidableEq

inductive Method where
  | GET
  | POST
deriving DecidableEq

/-- The part of the request the handler inspects: the method and the
multipart file fields (field name paired with the file). -/
structure Request where
  method : Method
  files : List (List Char × UploadedFile)

/-- The multipart field name `'file'`. -/
def fileKey : List Char := ['f', 'i', 'l', 'e']

inductive Page where
  | index_html
  | result_html
deriving DecidableEq

/-- The two error messages the handler can render. -/
inductive ErrMsg where
  | noFilePart
  | noSelectedFile
deriving DecidableEq

/-- A rendered response: which template, the `error` argument passed to
it (if any), and the `result` argument passed to it (if any). -/
structure Response where
  page : Page
  error : Option ErrMsg
  result : Option AnalysisResult
deriving DecidableEq

/-- Werkzeug `FileStorage` truthiness (the `file` in
`if file and allowed_file(...)`): a file object is truthy exactly when
its filename is non-empty. -/
def fileTruthy (f : UploadedFile) : Bool :=
  decide (f.filename ≠ [])

/-- The `index` handler (app.py lines 74-101). `decode` abstracts the
external pipeline `np.fromstring` / `cv2.imdecode` / `cv2.cvtColor` /
`cv2.Canny` / `cv2.findContours` turning the uploaded bytes into the HSV
pixel list and the contour list fed to `analyze_image`. A `POST` without
a `'file'` field renders the index page with `error='No file part'`; an
empty filename renders it with `error='No selected file'`; an allowed
file is analyzed and `result.html` rendered; otherwise (disallowed
extension, or a `GET`) the function falls through to
`render_template('index.html')` with no arguments. An exception from
`analyze_image` propagates. -/
def index (decode : List ℕ → List HSV × List Contour) (req : Request) :
    Except Unit Response :=
  if req.method = Method.POST then
    match req.files.lookup fileKey with
    | none => Except.ok ⟨Page.index_html, some ErrMsg.noFilePart, none⟩
    | some f =>
      if f.filename = [] then
        Except.ok ⟨Page.index_html, some ErrMsg.noSelectedFile, none⟩
      else if fileTruthy f && allowed_file f.filename then
        let (hsv, cnts) := decode f.content
        (analyze_image hsv cnts).map
          (fun res => ⟨Page.result_html, none, some res⟩)
      else Except.ok ⟨Page.index_html, none, none⟩
  else Except.ok ⟨Page.index_html, none, none⟩

/-! ## Buffer-level model of `analyze_image` (app.py lines 22-66)

For the frame property (the analyzer never mutates the caller's image)
the call is replayed against an explicit store of pixel buffers: every
`cv2` derivation allocates a fresh buffer, and the one operation old
OpenCV builds may mutate in place — `findContours` — is applied to
`edges.copy()` and its write-back lands on that copy. -/

/-- A store of pixel buffers; an address is an index into the list. -/
abbrev Mem := List (List ℕ)

def readBuf (m : Mem) (a : ℕ) : List ℕ :=
  m.getD a []

/-- Allocate a fresh buffer, returning the new store and its address. -/
def allocBuf (m : Mem) (b : List ℕ) : Mem × ℕ :=
  (m ++ [b], m.length)

def writeBuf (m : Mem) (a : ℕ) (b : List ℕ) : Mem :=
  m.set a b

/-- The external library operations, as opaque-to-the-proof functions on
buffer contents: the theorems quantify over them, so nothing is assumed
about what they compute. -/
structure CVLib where
  cvtColorGray : List ℕ → List ℕ
  gaussianBlur : List ℕ → List ℕ
  cvtColorHSV : List ℕ → List ℕ
  hsvPixels : List ℕ → List HSV
  canny : List ℕ → List ℕ
  findContoursFn : List ℕ → List ℕ × List Contour

/-- `analyze_image` replayed on the buffer store, one allocation per
derived buffer, in source order (app.py lines 22, 23, 27, 38-40, 53, 56):
gray, blur, hsv, the three range counts (pure reads), edges, the copy of
edges handed to `findContours` (whose possible in-place mutation is
written back to that copy), then the pure filter loop. -/
def analyze_image_mem (lib : CVLib) (m : Mem) (img : ℕ) :
    Mem × Except Unit AnalysisResult :=
  let (m1, gray) := allocBuf m (lib.cvtColorGray (readBuf m img))
  let (m2, blur) := allocBuf m1 (lib.gaussianBlur (readBuf m1 gray))
  let (m3, hsvA) := allocBuf m2 (lib.cvtColorHSV (readBuf m2 img))
  let hsv := lib.hsvPixels (readBuf m3 hsvA)
  let redC := red_count hsv
  let blueC := blue_count hsv
  let greenC := green_count hsv
  let dc := dominant_color redC blueC greenC
  let (m4, edges) := allocBuf m3 (lib.canny (readBuf m3 blur))
  let (m5, ecopy) := allocBuf m4 (readBuf m4 edges)
  let (buf2, cnts) := lib.findContoursFn (readBuf m5 ecopy)
  let m6 := writeBuf m5 ecopy buf2
  (m6, (numberPlates cnts).map (fun ps => ⟨dc, ps⟩))

/-! ## Spec-side characterizations and concrete fixtures -/

/-- The acceptance predicate of the plate filter as the spec states it:
`2 < w/h < 5` on the bounding rectangle and `100 < area < 5000` on the
enclosed contour area. -/
def passesFilter (cnt : Contour) : Bool :=
  let r := boundingRect cnt
  decide (2 < (r.w : ℚ) / (r.h : ℚ) ∧ (r.w : ℚ) / (r.h : ℚ) < 5 ∧
          100 < contourArea cnt ∧ contourArea cnt < 5000)

/-- A 61x20 axis-aligned rectangle contour: aspect ratio 3.05, shoelace
area 1140, inside both acceptance bands. -/
def rectCnt : Contour := [(0, 0), (60, 0), (60, 19), (0, 19)]

/-- A 2x2 square contour: aspect ratio 1, rejected by the filter. -/
def squareCnt : Contour := [(0, 0), (1, 0), (1, 1), (0, 1)]

/-- A decode stub standing in for the external byte-to-image pipeline. -/
def nullDecode : List ℕ → List HSV × List Contour := fun _ => ([], [])

def txtUpload : UploadedFile :=
  ⟨['p', 'h', 'o', 't', 'o', '.', 't', 'x', 't'], []⟩

/-- A POST uploading `photo.txt` in the `'file'` field. -/
def txtRequest : Request := ⟨Method.POST, [(fileKey, txtUpload)]⟩

/-- A POST with no `'file'` field at all. -/
def reqNoFile : Request := ⟨Method.POST, []⟩

def emptyNameUpload : UploadedFile := ⟨[], []⟩

/-- A POST whose uploaded file has an empty filename. -/
def reqEmptyName : Request := ⟨Method.POST, [(fileKey, emptyNameUpload)]⟩

/-- A trivial instantiation of the external library operations. -/
def cvlib0 : CVLib :=
  ⟨id, id, id, fun _ => [], id, fun b => (b, [])⟩

/-! ## Helper lemmas -/

theorem char_eq_of_toNat_eq {a b : Char} (h : a.toNat = b.toNat) : a = b :=
  Char.eq_of_val_eq (UInt32.toNat.inj h)

theorem toNat_toLower (c : Char) :
    c.toLower.toNat =
      if c.toNat ≥ 65 ∧ c.toNat ≤ 90 then c.toNat + 32 else c.toNat := by
  unfold Char.toLower
  by_cases h : c.toNat ≥ 65 ∧ c.toNat ≤ 90
  · rw [if_pos h, if_pos h]
    unfold Char.ofNat
    have hv : (c.toNat + 32).isValidChar := Or.inl (by omega)
    rw [dif_pos hv]
    rfl
  · rw [if_neg h, if_neg h]

theorem toLower_eq_dot (c : Char) (h : c.toLower = '.') : c = '.' := by
  have h1 : c.toLower.toNat = 46 := by rw [h]; rfl
  rw [toNat_toLower] at h1
  by_cases h2 : c.toNat ≥ 65 ∧ c.toNat ≤ 90
  · rw [if_pos h2] at h1; omega
  · rw [if_neg h2] at h1
    exact char_eq_of_toNat_eq h1

theorem toLower_toLower (c : Char) : c.toLower.toLower = c.toLower := by
  have h1 := toNat_toLower c
  have h2 := toNat_toLower c.toLower
  by_cases h : c.toNat ≥ 65 ∧ c.toNat ≤ 90
  · rw [if_pos h] at h1
    rw [h1] at h2
    rw [if_neg (by omega)] at h2
    exact char_eq_of_toNat_eq (h2.trans h1.symm)
  · rw [if_neg h] at h1
    rw [h1, if_neg h] at h2
    exact char_eq_of_toNat_eq (h2.trans h1.symm)

theorem dominant_color_cases (redC blueC greenC : ℕ) :
    (dominant_color redC blueC greenC = some Color.Red ↔
       redC > blueC ∧ redC > greenC) ∧
    (dominant_color redC blueC greenC = some Color.Blue ↔
       blueC > redC ∧ blueC > greenC) ∧
    (dominant_color redC blueC greenC = some Color.Green ↔
       greenC > redC ∧ greenC > blueC) ∧
    (dominant_color redC blueC greenC = none ↔
       ¬(redC > blueC ∧ redC > greenC) ∧ ¬(blueC > redC ∧ blueC > greenC) ∧
       ¬(greenC > redC ∧ greenC > blueC)) := by
  unfold dominant_color
  split_ifs with h1 h2 h3 <;>
    refine ⟨?_, ?_, ?_, ?_⟩ <;> simp_all <;> omega

theorem analyze_image_ok_color {hsv : List HSV} {cnts : List Contour}
    {res : AnalysisResult} (hok : analyze_image hsv cnts = Except.ok res) :
    res.color =
      dominant_color (red_count hsv) (blue_count hsv) (green_count hsv) := by
  unfold analyze_image at hok
  cases h : numberPlates cnts with
  | ok ps => rw [h] at hok; cases hok; rfl
  | error e => rw [h] at hok; cases hok

/-! ## C1 -/

/-- C1: for every input image, the dominant-color label returned by
`analyze_image` is `Red` (resp. `Blue`, `Green`) exactly when that
band's pixel count strictly exceeds both other bands' counts, and is
`none` whenever no count strictly exceeds both others (including exact
ties and the all-zero case). -/
theorem analyze_image_color_spec (hsv : List HSV) (cnts : List Contour)
    (res : AnalysisResult) (hok : analyze_image hsv cnts = Except.ok res) :
    (res.color = some Color.Red ↔
       red_count hsv > blue_count hsv ∧ red_count hsv > green_count hsv) ∧
    (res.color = some Color.Blue ↔
       blue_count hsv > red_count hsv ∧ blue_count hsv > green_count hsv) ∧
    (res.color = some Color.Green ↔
       green_count hsv > red_count hsv ∧ green_count hsv > blue_count hsv) ∧
    (res.color = none ↔
       ¬(red_count hsv > blue_count hsv ∧ red_count hsv > green_count hsv) ∧
       ¬(blue_count hsv > red_count hsv ∧ blue_count hsv > green_count hsv) ∧
       ¬(green_count hsv > red_count hsv ∧ green_count hsv > blue_count hsv)) := by
  rw [analyze_image_ok_color hok]
  exact dominant_color_cases _ _ _

/-- Witness for C1 at a concrete one-pixel red image: the hypothesis of
`analyze_image_color_spec` is discharged by evaluation and the `Red`
case of the conclusion is instantiated. -/
theorem analyze_image_color_spec_witness :
    (AnalysisResult.mk (some Color.Red) []).color = some Color.Red :=
  (analyze_image_color_spec [⟨175, 200, 200⟩] [] ⟨some Color.Red, []⟩
      (by rfl)).1.mpr (by decide)

/-! ## C2 -/

theorem plateStep_ok_some {cnt : Contour} {r : Rect} :
    plateStep cnt = Except.ok (some r) ↔
      (boundingRect cnt).h ≠ 0 ∧ passesFilter cnt = true ∧ r = boundingRect cnt := by
  unfold plateStep passesFilter
  by_cases h0 : (boundingRect cnt).h = 0
  · simp [h0]
  · by_cases hP : 2 < ((boundingRect cnt).w : ℚ) / ((boundingRect cnt).h : ℚ) ∧
        ((boundingRect cnt).w : ℚ) / ((boundingRect cnt).h : ℚ) < 5 ∧
        100 < contourArea cnt ∧ contourArea cnt < 5000
    · simp [h0, hP]
      exact comm
    · simp [h0, hP]

theorem plateStep_ok_none {cnt : Contour} :
    plateStep cnt = Except.ok none ↔
      (boundingRect cnt).h ≠ 0 ∧ passesFilter cnt = false := by
  unfold plateStep passesFilter
  by_cases h0 : (boundingRect cnt).h = 0
  · simp [h0]
  · by_cases hP : 2 < ((boundingRect cnt).w : ℚ) / ((boundingRect cnt).h : ℚ) ∧
        ((boundingRect cnt).w : ℚ) / ((boundingRect cnt).h : ℚ) < 5 ∧
        100 < contourArea cnt ∧ contourArea cnt < 5000
    · simp [h0, hP]
    · simp [h0, hP]

/-- C2: every bounding rectangle of a discovered contour appears in the
returned plate-candidate list if and only if `2 < w/h < 5` and
`100 < area < 5000`, where `area` is the enclosed (shoelace) contour
area, not `w*h`; candidates appear in contour discovery order with no
deduplication or overlap suppression — the list is exactly the in-order
filter of the contour list by `passesFilter`, mapped through
`boundingRect`. -/
theorem numberPlates_filter_spec (cnts : List Contour) (rs : List Rect)
    (hok : numberPlates cnts = Except.ok rs) :
    rs = (cnts.filter passesFilter).map boundingRect := by
  induction cnts generalizing rs with
  | nil =>
    unfold numberPlates at hok
    cases hok
    rfl
  | cons cnt rest ih =>
    unfold numberPlates at hok
    cases hs : plateStep cnt with
    | error e => rw [hs] at hok; cases hok
    | ok o =>
      rw [hs] at hok
      cases ht : numberPlates rest with
      | error e =>
        rw [ht] at hok
        cases o <;> cases hok
      | ok tail =>
        rw [ht] at hok
        cases o with
        | some r =>
          injection hok with hk
          subst hk
          obtain ⟨h0, hpass, hr⟩ := plateStep_ok_some.mp hs
          simp only [List.filter_cons, hpass, if_true, List.map_cons]
          rw [← hr, ← ih tail ht]
        | none =>
          injection hok with hk
          subst hk
          obtain ⟨h0, hpass⟩ := plateStep_ok_none.mp hs
          simp only [List.filter_cons, hpass, Bool.false_eq_true, if_false]
          exact ih tail ht

/-- Witness for C2 at a concrete contour pair: the 61x20 rectangle
passes, the 2x2 square does not, and the hypothesis is discharged by
evaluating `numberPlates`. -/
theorem numberPlates_filter_spec_witness :
    [Rect.mk 0 0 61 20] = ([rectCnt, squareCnt].filter passesFilter).map boundingRect :=
  numberPlates_filter_spec [rectCnt, squareCnt] [⟨0, 0, 61, 20⟩] (by
    simp [numberPlates, plateStep, rectCnt, squareCnt, boundingRect, contourArea,
          shoelace, cross]
    norm_num
    rfl)

/-! ## Contour-filter membership helpers -/

theorem boundingRect_h_ne_zero (p : Pt) (ps : List Pt) :
    (boundingRect (p :: ps)).h ≠ 0 := by
  simp [boundingRect]

theorem plateStep_error {cnt : Contour} {e : Unit}
    (h : plateStep cnt = Except.error e) : (boundingRect cnt).h = 0 := by
  unfold plateStep at h
  by_cases h0 : (boundingRect cnt).h = 0
  · exact h0
  · rw [if_neg h0] at h; cases h

theorem mem_numberPlates {cnts : List Contour} {rs : List Rect}
    (hok : numberPlates cnts = Except.ok rs) {r : Rect} (hr : r ∈ rs) :
    ∃ cnt ∈ cnts, plateStep cnt = Except.ok (some r) := by
  induction cnts generalizing rs with
  | nil =>
    unfold numberPlates at hok
    cases hok
    cases hr
  | cons cnt rest ih =>
    unfold numberPlates at hok
    cases hs : plateStep cnt with
    | error e => rw [hs] at hok; cases hok
    | ok o =>
      rw [hs] at hok
      cases ht : numberPlates rest with
      | error e => rw [ht] at hok; cases o <;> cases hok
      | ok tail =>
        rw [ht] at hok
        cases o with
        | some r2 =>
          injection hok with hk
          subst hk
          rcases List.mem_cons.mp hr with hr1 | hr2
          · exact ⟨cnt, List.mem_cons_self _ _, by rw [hs, hr1]⟩
          · obtain ⟨c, hc, hcs⟩ := ih ht hr2
            exact ⟨c, List.mem_cons_of_mem _ hc, hcs⟩
        | none =>
          injection hok with hk
          subst hk
          obtain ⟨c, hc, hcs⟩ := ih ht hr
          exact ⟨c, List.mem_cons_of_mem _ hc, hcs⟩

theorem rect_conds {cnt : Contour} {r : Rect}
    (hs : plateStep cnt = Except.ok (some r)) :
    r.h ≠ 0 ∧ 2 < (r.w : ℚ) / (r.h : ℚ) ∧ (r.w : ℚ) / (r.h : ℚ) < 5 := by
  obtain ⟨h0, hpass, hr⟩ := plateStep_ok_some.mp hs
  unfold passesFilter at hpass
  rw [decide_eq_true_eq] at hpass
  obtain ⟨h2, h5, _, _⟩ := hpass
  subst hr
  exact ⟨h0, h2, h5⟩

/-! ## C7 -/

/-- C7: no rectangle with aspect ratio `w/h = 1` (a square) ever appears
in the returned plate-candidate list, regardless of its area: every
emitted rectangle has `2 < w/h`, so the ratio is never 1. -/
theorem numberPlates_no_square (cnts : List Contour) (rs : List Rect)
    (hok : numberPlates cnts = Except.ok rs) (r : Rect) (hr : r ∈ rs) :
    (r.w : ℚ) / (r.h : ℚ) ≠ 1 := by
  obtain ⟨cnt, _, hs⟩ := mem_numberPlates hok hr
  obtain ⟨h0, h2, h5⟩ := rect_conds hs
  intro h1
  rw [h1] at h2
  norm_num at h2

/-- Witness for C7 at a concrete call returning the 61x20 rectangle. -/
theorem numberPlates_no_square_witness :
    ((Rect.mk 0 0 61 20).w : ℚ) / ((Rect.mk 0 0 61 20).h : ℚ) ≠ 1 :=
  numberPlates_no_square [rectCnt] [⟨0, 0, 61, 20⟩] (by
    simp [numberPlates, plateStep, rectCnt, boundingRect, contourArea, shoelace,
          cross]
    norm_num
    rfl) ⟨0, 0, 61, 20⟩ (by simp)

/-! ## C8 -/

theorem plateStep_area_out {cnt : Contour}
    (hA : contourArea cnt = 50 ∨ contourArea cnt = 10000) :
    plateStep cnt = Except.ok none := by
  cases cnt with
  | nil =>
    exfalso
    unfold contourArea at hA
    rcases hA with h | h <;> norm_num at h
  | cons p ps =>
    refine plateStep_ok_none.mpr ⟨boundingRect_h_ne_zero p ps, ?_⟩
    unfold passesFilter
    rw [decide_eq_false_iff_not]
    rintro ⟨_, _, ha1, ha2⟩
    rcases hA with h | h
    · rw [h] at ha1; norm_num at ha1
    · rw [h] at ha2; norm_num at ha2

/-- C8: no contour with enclosed area exactly 50 or exactly 10000 ever
contributes a rectangle, regardless of its aspect ratio: dropping all
such contours from the discovered list leaves the call's outcome
unchanged. -/
theorem numberPlates_drop_area (cnts : List Contour) :
    numberPlates (cnts.filter fun cnt =>
        !(decide (contourArea cnt = 50 ∨ contourArea cnt = 10000))) =
      numberPlates cnts := by
  induction cnts with
  | nil => rfl
  | cons cnt rest ih =>
    rw [List.filter_cons]
    by_cases hA : contourArea cnt = 50 ∨ contourArea cnt = 10000
    · rw [if_neg (by simp [hA])]
      rw [ih]
      conv_rhs => unfold numberPlates
      rw [plateStep_area_out hA]
      cases numberPlates rest <;> rfl
    · rw [if_pos (by simp [hA])]
      conv_lhs => unfold numberPlates
      conv_rhs => unfold numberPlates
      rw [ih]

/-! ## C10 -/

/-- C10: every rectangle in the returned plate-candidate list satisfies
`x ≥ 0`, `y ≥ 0`, `w ≥ 1` and `h ≥ 1`, so the aspect ratio `w/h` is well
defined for every emitted candidate. -/
theorem numberPlates_rect_invariants (cnts : List Contour) (rs : List Rect)
    (hok : numberPlates cnts = Except.ok rs) (r : Rect) (hr : r ∈ rs) :
    0 ≤ r.x ∧ 0 ≤ r.y ∧ 1 ≤ r.w ∧ 1 ≤ r.h := by
  obtain ⟨cnt, _, hs⟩ := mem_numberPlates hok hr
  obtain ⟨h0, h2, h5⟩ := rect_conds hs
  refine ⟨Nat.zero_le _, Nat.zero_le _, ?_, Nat.one_le_iff_ne_zero.mpr h0⟩
  apply Nat.one_le_iff_ne_zero.mpr
  intro hw0
  rw [hw0] at h2
  norm_num at h2

/-- Witness for C10 at the same concrete call. -/
theorem numberPlates_rect_invariants_witness :
    0 ≤ (Rect.mk 0 0 61 20).x ∧ 0 ≤ (Rect.mk 0 0 61 20).y ∧
      1 ≤ (Rect.mk 0 0 61 20).w ∧ 1 ≤ (Rect.mk 0 0 61 20).h :=
  numberPlates_rect_invariants [rectCnt] [⟨0, 0, 61, 20⟩] (by
    simp [numberPlates, plateStep, rectCnt, boundingRect, contourArea, shoelace,
          cross]
    norm_num
    rfl) ⟨0, 0, 61, 20⟩ (by simp)

/-! ## C4 -/

/-- C4 counterexample: the division `float(w) / h` is not guarded. For
the one contour shape whose bounding rectangle has `h = 0` (the empty
contour), the loop raises (`Except.error ()`, the `ZeroDivisionError`)
instead of excluding the contour. -/
theorem plateFilter_h0_raises :
    (boundingRect ([] : Contour)).h = 0 ∧
      numberPlates [([] : Contour)] = Except.error () := ⟨rfl, rfl⟩

/-- C4 amended: the code contains no guard, but `h = 0` cannot arise
from the contours `findContours` produces: every non-empty contour has a
bounding rectangle with `h ≥ 1`, so the loop never raises on such
input. -/
theorem numberPlates_total_on_nonempty (cnts : List Contour)
    (hne : ∀ cnt ∈ cnts, cnt ≠ []) :
    ∃ rs, numberPlates cnts = Except.ok rs := by
  induction cnts with
  | nil => exact ⟨[], rfl⟩
  | cons cnt rest ih =>
    obtain ⟨rs, hrs⟩ := ih (fun c hc => hne c (List.mem_cons_of_mem _ hc))
    have h0 : (boundingRect cnt).h ≠ 0 := by
      cases cnt with
      | nil => exact absurd rfl (hne [] (List.mem_cons_self _ _))
      | cons p ps => exact boundingRect_h_ne_zero p ps
    cases hcase : plateStep cnt with
    | error e => exact absurd (plateStep_error hcase) h0
    | ok o =>
      unfold numberPlates
      rw [hcase, hrs]
      cases o with
      | some r => exact ⟨r :: rs, rfl⟩
      | none => exact ⟨rs, rfl⟩

/-- Witness for C4's amended claim at a concrete one-point contour. -/
theorem numberPlates_total_on_nonempty_witness :
    ∃ rs, numberPlates [[((0 : ℕ), (0 : ℕ))]] = Except.ok rs :=
  numberPlates_total_on_nonempty [[(0, 0)]] (by decide)

/-! ## C3 -/

/-- C3 counterexample: a POST uploading `photo.txt` (stored in the
`'file'` field, non-empty filename, disallowed extension) renders the
index page with NO error argument at all — there is no user-visible
"disallowed extension" error state in the code, which falls through to
the bare `render_template('index.html')`. -/
theorem index_txt_renders_no_error :
    index nullDecode txtRequest = Except.ok ⟨Page.index_html, none, none⟩ := rfl

/-- C3 amended: uploading a file whose extension is not accepted
re-renders the index page with no error message, and the analysis
function is never called (the response is the same constant for every
`decode`/analysis pipeline). -/
theorem index_disallowed_ext (decode : List ℕ → List HSV × List Contour)
    (req : Request) (f : UploadedFile)
    (hm : req.method = Method.POST)
    (hf : req.files.lookup fileKey = some f)
    (hne : f.filename ≠ [])
    (hext : allowed_file f.filename = false) :
    index decode req = Except.ok ⟨Page.index_html, none, none⟩ := by
  unfold index
  rw [if_pos hm, hf]
  split
  · next heq => cases heq
  · next f2 heq =>
    injection heq with hff
    subst hff
    rw [if_neg hne, if_neg (by simp [hext])]

/-- Witness for C3's amended claim at the concrete `photo.txt`
request. -/
theorem index_disallowed_ext_witness :
    index nullDecode txtRequest = Except.ok ⟨Page.index_html, none, none⟩ :=
  index_disallowed_ext nullDecode txtRequest txtUpload rfl rfl
    (by decide) (by decide)

/-! ## C5 -/

/-- C5: a POST with no `'file'` field renders the index page with the
`'No file part'` error, and a POST whose file has an empty filename
renders it with the `'No selected file'` error; in both cases the
response is independent of the analysis pipeline (`decode` is
universally quantified and never invoked) and the handler touches no
other state. -/
theorem index_missing_file_errors (decode : List ℕ → List HSV × List Contour)
    (req : Request) (hm : req.method = Method.POST) :
    (req.files.lookup fileKey = none →
       index decode req =
         Except.ok ⟨Page.index_html, some ErrMsg.noFilePart, none⟩) ∧
    (∀ f, req.files.lookup fileKey = some f → f.filename = [] →
       index decode req =
         Except.ok ⟨Page.index_html, some ErrMsg.noSelectedFile, none⟩) := by
  constructor
  · intro hf
    unfold index
    rw [if_pos hm, hf]
  · intro f hf he
    unfold index
    rw [if_pos hm, hf]
    split
    · next heq => cases heq
    · next f2 heq =>
      injection heq with hff
      subst hff
      rw [if_pos he]

/-- Witness for C5 at two concrete requests: one with no file field, one
with an empty filename. -/
theorem index_missing_file_errors_witness :
    index nullDecode reqNoFile =
        Except.ok ⟨Page.index_html, some ErrMsg.noFilePart, none⟩ ∧
      index nullDecode reqEmptyName =
        Except.ok ⟨Page.index_html, some ErrMsg.noSelectedFile, none⟩ :=
  ⟨(index_missing_file_errors nullDecode reqNoFile rfl).1 rfl,
   (index_missing_file_errors nullDecode reqEmptyName rfl).2 emptyNameUpload
     rfl rfl⟩

/-! ## C6 -/

theorem readBuf_append (m m2 : Mem) (a : ℕ) (h : a < m.length) :
    readBuf (m ++ m2) a = readBuf m a := by
  unfold readBuf
  rw [List.getD_eq_getElem?_getD, List.getD_eq_getElem?_getD,
      List.getElem?_append_left h]

theorem readBuf_set_ne (m : Mem) (i a : ℕ) (b : List ℕ) (h : i ≠ a) :
    readBuf (writeBuf m i b) a = readBuf m a := by
  unfold readBuf writeBuf
  rw [List.getD_eq_getElem?_getD, List.getD_eq_getElem?_getD,
      List.getElem?_set_ne h]

theorem readBuf_alloc5_set (m : Mem) (b1 b2 b3 b4 b5 c : List ℕ) (a : ℕ)
    (h : a < m.length) :
    readBuf (writeBuf (m ++ [b1] ++ [b2] ++ [b3] ++ [b4] ++ [b5])
        (m ++ [b1] ++ [b2] ++ [b3] ++ [b4]).length c) a = readBuf m a := by
  rw [readBuf_set_ne _ _ _ _ (by simp; omega)]
  rw [readBuf_append _ _ _ (by simp; omega)]
  rw [readBuf_append _ _ _ (by simp; omega)]
  rw [readBuf_append _ _ _ (by simp; omega)]
  rw [readBuf_append _ _ _ (by simp; omega)]
  exact readBuf_append _ _ _ h

/-- C6: `analyze_image` never mutates the caller's image buffer. In the
buffer-store replay of the call, for every choice of the external
library operations the input buffer reads back unchanged after the call:
every derived buffer (grayscale, blurred, HSV, edge map, the copy of the
edge map) is a fresh allocation, and the only in-place write (the
`findContours` write-back) targets the fresh copy. -/
theorem analyze_image_mem_frame (lib : CVLib) (m : Mem) (img : ℕ)
    (himg : img < m.length) :
    readBuf (analyze_image_mem lib m img).1 img = readBuf m img := by
  unfold analyze_image_mem allocBuf
  exact readBuf_alloc5_set m _ _ _ _ _ _ img himg

/-- Witness for C6 at a concrete one-buffer store. -/
theorem analyze_image_mem_frame_witness :
    readBuf (analyze_image_mem cvlib0 [[5]] 0).1 0 = readBuf [[5]] 0 :=
  analyze_image_mem_frame cvlib0 [[5]] 0 (by decide)

/-! ## C9 -/

theorem takeWhile_append_sentinel {p : Char → Bool} {xs : List Char} {y : Char}
    (ys : List Char) (hxs : ∀ x ∈ xs, p x = true) (hy : p y = false) :
    (xs ++ y :: ys).takeWhile p = xs := by
  induction xs with
  | nil => simp [List.takeWhile_cons, hy]
  | cons a as ih =>
    rw [List.cons_append, List.takeWhile_cons, hxs a (List.mem_cons_self _ _)]
    simp only [if_true]
    rw [ih (fun x hx => hxs x (List.mem_cons_of_mem _ hx))]

theorem dropWhile_append_sentinel {p : Char → Bool} {xs : List Char} {y : Char}
    (ys : List Char) (hxs : ∀ x ∈ xs, p x = true) (hy : p y = false) :
    (xs ++ y :: ys).dropWhile p = y :: ys := by
  induction xs with
  | nil => simp [List.dropWhile_cons, hy]
  | cons a as ih =>
    rw [List.cons_append, List.dropWhile_cons, hxs a (List.mem_cons_self _ _)]
    simp only [if_true]
    exact ih (fun x hx => hxs x (List.mem_cons_of_mem _ hx))

theorem dropWhile_ne_mem {l : List Char} {s : Char} (h : s ∈ l) :
    ∃ rest, l.dropWhile (fun c => c ≠ s) = s :: rest := by
  induction l with
  | nil => cases h
  | cons c cs ih =>
    by_cases hc : c = s
    · subst hc
      exact ⟨cs, by simp [List.dropWhile_cons]⟩
    · have hs : s ∈ cs := by
        rcases List.mem_cons.mp h with h1 | h2
        · exact absurd h1.symm hc
        · exact h2
      obtain ⟨rest, hrest⟩ := ih hs
      refine ⟨rest, ?_⟩
      rw [List.dropWhile_cons, if_pos (by simp [hc]), hrest]

theorem rsplit1_decomp (l : List Char) (h : '.' ∈ l) :
    l = (rsplit1 '.' l).getD 0 [] ++ '.' :: (rsplit1 '.' l).getD 1 [] ∧
      '.' ∉ (rsplit1 '.' l).getD 1 [] := by
  have hrev : '.' ∈ l.reverse := List.mem_reverse.mpr h
  have hcont : l.reverse.contains '.' = true :=
    List.contains_iff_exists_mem_beq.mpr ⟨'.', hrev, by simp⟩
  obtain ⟨rest, hdrop⟩ := dropWhile_ne_mem hrev
  have hsplit := List.takeWhile_append_dropWhile (fun c => decide (c ≠ '.')) l.reverse
  unfold rsplit1
  rw [if_pos hcont]
  simp only [List.getD]
  constructor
  · conv_lhs => rw [← List.reverse_reverse l, ← hsplit, hdrop]
    rw [hdrop]
    simp [List.reverse_append]
  · intro hmem
    have := List.mem_takeWhile_imp (List.mem_reverse.mp hmem)
    simp at this

theorem rsplit1_of_decomp (stem ext : List Char) (hnd : '.' ∉ ext) :
    rsplit1 '.' (stem ++ '.' :: ext) = [stem, ext] := by
  have hxs : ∀ x ∈ ext.reverse, (decide (x ≠ '.') : Bool) = true := by
    intro x hx
    simp only [decide_eq_true_eq, ne_eq]
    intro hx2
    exact hnd (by rw [← hx2]; exact List.mem_reverse.mp hx)
  have hy : (decide (('.' : Char) ≠ '.') : Bool) = false := by simp
  have hrev : (stem ++ '.' :: ext).reverse = ext.reverse ++ '.' :: stem.reverse := by
    rw [List.reverse_append]
    simp
  unfold rsplit1
  rw [hrev]
  rw [if_pos (List.contains_iff_exists_mem_beq.mpr ⟨'.', by simp, by simp⟩)]
  rw [takeWhile_append_sentinel _ hxs hy, dropWhile_append_sentinel _ hxs hy]
  simp

theorem allowed_file_iff (filename : List Char) :
    allowed_file filename = true ↔
      ∃ stem ext, filename = stem ++ '.' :: ext ∧ '.' ∉ ext ∧
        (ext.map Char.toLower = pngExt ∨ ext.map Char.toLower = jpgExt ∨
         ext.map Char.toLower = jpegExt) := by
  unfold allowed_file
  rw [Bool.and_eq_true, decide_eq_true_eq]
  constructor
  · rintro ⟨hc, hext⟩
    have hmem : '.' ∈ filename :=
      (List.contains_iff_exists_mem_beq.mp hc).elim
        (fun x hx => by
          obtain ⟨hx1, hx2⟩ := hx
          obtain rfl : '.' = x := by simpa using hx2
          exact hx1)
    obtain ⟨hdec, hnd⟩ := rsplit1_decomp filename hmem
    refine ⟨(rsplit1 '.' filename).getD 0 [], (rsplit1 '.' filename).getD 1 [],
            hdec, hnd, ?_⟩
    simpa using hext
  · rintro ⟨stem, ext, rfl, hnd, hset⟩
    constructor
    · exact List.contains_iff_exists_mem_beq.mpr ⟨'.', by simp, by simp⟩
    · rw [rsplit1_of_decomp stem ext hnd]
      simpa using hset

theorem toLower_dot : Char.toLower '.' = '.' := by decide

theorem map_toLower_toLower (l : List Char) :
    (l.map Char.toLower).map Char.toLower = l.map Char.toLower := by
  rw [List.map_map]
  exact List.map_eq_map_iff.mpr (fun a _ => toLower_toLower a)

theorem allowed_file_toLower (filename : List Char) :
    allowed_file (filename.map Char.toLower) = allowed_file filename := by
  rw [Bool.eq_iff_iff, allowed_file_iff, allowed_file_iff]
  constructor
  · rintro ⟨stem, ext, hdec, hnd, hset⟩
    obtain ⟨l1, l2, rfl, hl1, hl2⟩ := List.map_eq_append_iff.mp hdec
    obtain ⟨c, l2t, rfl, hc, hl2t⟩ := List.map_eq_cons_iff.mp hl2
    have hcdot : c = '.' := toLower_eq_dot c hc
    subst hcdot
    refine ⟨l1, l2t, rfl, ?_, ?_⟩
    · intro hm
      exact hnd (by rw [← hl2t]; exact List.mem_map.mpr ⟨'.', hm, toLower_dot⟩)
    · rw [← hl2t, map_toLower_toLower] at hset
      exact hset
  · rintro ⟨stem, ext, rfl, hnd, hset⟩
    refine ⟨stem.map Char.toLower, ext.map Char.toLower, ?_, ?_, ?_⟩
    · rw [List.map_append, List.map_cons, toLower_dot]
    · intro hm
      obtain ⟨x, hx, hx2⟩ := List.mem_map.mp hm
      rw [toLower_eq_dot x hx2] at hx
      exact hnd hx
    · rw [map_toLower_toLower]
      exact hset

/-- C9: the extension check accepts a filename if and only if it
contains a dot and the substring after its last dot (the suffix `ext` of
the unique split `filename = stem ++ '.' :: ext` with no dot in `ext`),
lowercased, is `png`, `jpg` or `jpeg`; a filename with no dot is always
rejected, and acceptance is invariant under lowercasing the filename
(case-insensitive). -/
theorem allowed_file_spec (filename : List Char) :
    (allowed_file filename = true ↔
       ∃ stem ext, filename = stem ++ '.' :: ext ∧ '.' ∉ ext ∧
         (ext.map Char.toLower = pngExt ∨ ext.map Char.toLower = jpgExt ∨
          ext.map Char.toLower = jpegExt)) ∧
    (filename.contains '.' = false → allowed_file filename = false) ∧
    allowed_file (filename.map Char.toLower) = allowed_file filename :=
  ⟨allowed_file_iff filename,
   fun hc => by unfold allowed_file; rw [hc, Bool.false_and],
   allowed_file_toLower filename⟩

/-- Witness for C9 at the concrete filename `photo.PNG`. -/
theorem allowed_file_spec_witness :
    allowed_file ['p', 'h', 'o', 't', 'o', '.', 'P', 'N', 'G'] = true :=
  (allowed_file_spec ['p', 'h', 'o', 't', 'o', '.', 'P', 'N', 'G']).1.mpr
    ⟨['p', 'h', 'o', 't', 'o'], ['P', 'N', 'G'], by decide, by decide, by decide⟩

end CarRecog
